import Mathlib

/-!
# Verification of the windsurf-relay `mcp-client` core

A shallow embedding, in Lean 4, of the Rust sources of the `mcp-client`
crate (`protocol.rs`, `windsurf.rs`, `executor.rs`, `main.rs`), together
with theorems settling the specification's testable properties.

Modelling conventions:

* Machine integers (`u8`, `u32`, `u64`, `usize`) are modelled as `Nat`,
  with explicit `% 2 ^ w` wherever the Rust code can overflow or truncate
  (`as u32` casts, `<<` on `u64`, wrapping subtraction on `u32`).
* Byte buffers (`Vec<u8>`, `&[u8]`) are modelled as `List Nat`.
* Rust text (`&str`, `String`) is modelled as `String` / `List Char`.
  The Rust code indexes strings by UTF-8 byte offsets; the model indexes
  by character position.  The two coincide on ASCII text, and every
  concrete input evaluated in this development is ASCII.  (The one place
  where byte-level UTF-8 structure matters — `ToolExecutor::truncate` —
  is modelled byte-accurately via `Char.utf8Size`.)
* Fallible or panicking code is modelled with `Option` / `Except`
  (`none` models a panic).
* External collaborators that are not part of this repository (the gzip
  codec from `flate2`, the network, the filesystem, uuid generation) are
  parameters of the model, constrained only by hypotheses stated in the
  theorems.
-/

set_option maxRecDepth 8000

namespace Relay

namespace Protocol

/-- `ProtobufEncoder::write_varint_raw` (`protocol.rs`): base-128
little-endian varint encoding.  Each step emits `(value as u8 & 0x7f) | 0x80`
(i.e. `value % 128 + 128`) and shifts `value` right by 7 bits, until the
remaining value fits in 7 bits. -/
def write_varint_raw (value : Nat) : List Nat :=
  if value ≤ 0x7f then [value]
  else (value % 128 + 128) :: write_varint_raw (value / 128)
termination_by value
decreasing_by simp_wf; omega

/-- The loop body of `decode_varint` (`protocol.rs`).  `value |= ((b & 0x7f)
as u64) << shift` is modelled with the release-mode Rust semantics of `<<`
on `u64`: the shift amount is masked by 64 and the result is truncated to
64 bits.  The loop stops past the end of the buffer or after a byte whose
continuation bit (`0x80`) is clear. -/
def decodeVarintLoop (data : List Nat) (offset shift value : Nat) : Nat × Nat :=
  if offset < data.length then
    if data.getD offset 0 &&& 0x80 = 0 then
      (value ||| ((data.getD offset 0 &&& 0x7f) <<< (shift % 64)) % 2 ^ 64, offset + 1)
    else
      decodeVarintLoop data (offset + 1) (shift + 7)
        (value ||| ((data.getD offset 0 &&& 0x7f) <<< (shift % 64)) % 2 ^ 64)
  else (value, offset)
termination_by data.length - offset
decreasing_by simp_wf; omega

/-- `decode_varint` (`protocol.rs`): decode a varint starting at `offset`,
returning the value and the offset one past the encoding. -/
def decode_varint (data : List Nat) (offset : Nat) : Nat × Nat :=
  decodeVarintLoop data offset 0 0

/-- `u32::to_be_bytes` on `n` (big-endian, 4 bytes), as used by
`connect_frame_encode` for the frame length. -/
def be32 (n : Nat) : List Nat :=
  [n / 2 ^ 24 % 256, n / 2 ^ 16 % 256, n / 2 ^ 8 % 256, n % 256]

/-- `u32::from_be_bytes` on four bytes, as used by `connect_frame_decode`. -/
def be32val (b0 b1 b2 b3 : Nat) : Nat :=
  ((b0 * 256 + b1) * 256 + b2) * 256 + b3

/-- `connect_frame_encode` (`protocol.rs`): gzip-compress the payload
(compression is the external `flate2` codec, passed as `gz`), then emit the
flag byte `1`, the compressed length as 4 big-endian bytes
(`compressed.len() as u32`, hence the `% 2 ^ 32`), and the compressed
bytes. -/
def connect_frame_encode (gz : List Nat → List Nat) (p : List Nat) : List Nat :=
  let compressed := gz p
  1 :: (be32 (compressed.length % 2 ^ 32) ++ compressed)

/-- The per-frame payload handling of `connect_frame_decode`
(`protocol.rs`): if the flag byte is `1` or `3` the payload is gzip
-decompressed; a decompression failure degrades to the raw payload bytes. -/
def decodeFramePayload (gunzip : List Nat → Option (List Nat)) (flags : Nat)
    (payload : List Nat) : List Nat :=
  if flags = 1 ∨ flags = 3 then
    match gunzip payload with
    | some buf => buf
    | none => payload
  else payload

/-- `connect_frame_decode` (`protocol.rs`): while at least 5 header bytes
remain, read the flag byte and the 4-byte big-endian length; if the
declared length exceeds the remaining bytes, stop (dropping the partial
tail); otherwise decode the payload and continue after it. -/
def connect_frame_decode (gunzip : List Nat → Option (List Nat)) :
    List Nat → List (List Nat)
  | flags :: b0 :: b1 :: b2 :: b3 :: rest =>
    if be32val b0 b1 b2 b3 ≤ rest.length then
      decodeFramePayload gunzip flags (rest.take (be32val b0 b1 b2 b3)) ::
        connect_frame_decode gunzip (rest.drop (be32val b0 b1 b2 b3))
    else []
  | _ => []
termination_by l => l.length
decreasing_by
  simp_wf
  have := List.length_drop (be32val b0 b1 b2 b3) rest
  omega

/-- One well-formed frame on the wire: a flag byte, the payload length as
4 big-endian bytes, and the payload.  (Meaningful when the payload is
shorter than `2 ^ 32`.) -/
def mkFrame (flags : Nat) (payload : List Nat) : List Nat :=
  flags :: (be32 payload.length ++ payload)

/-- A byte stream that ends mid-frame: either fewer than 5 header bytes
remain, or the 5-byte header declares a payload length exceeding the bytes
that follow it. -/
def isPartialTail : List Nat → Bool
  | _ :: b0 :: b1 :: b2 :: b3 :: rest => decide (rest.length < be32val b0 b1 b2 b3)
  | _ => true


end Protocol

namespace Windsurf

/-- JSON values: the model of `serde_json::Value`.  Objects are modelled as
association lists in parse order; every input evaluated in this development
has distinct keys, so the difference from `serde_json`'s map (last
duplicate wins, `BTreeMap` key order) is not observable here.  Numbers are
restricted to integers: no input in this development contains a number at
all. -/
inductive Json where
  | null
  | bool (b : Bool)
  | num (n : Int)
  | str (s : String)
  | arr (elems : List Json)
  | obj (fields : List (String × Json))

/-- `serde_json::Value::get` on an object (first matching key). -/
def Json.get (j : Json) (key : String) : Option Json :=
  match j with
  | Json.obj fields => List.lookup key fields
  | _ => none

/-- `serde_json::Value::as_str`. -/
def Json.asStr : Json → Option String
  | Json.str s => some s
  | _ => none

/-- JSON whitespace (space, tab, line feed, carriage return). -/
def isJsonWs (c : Char) : Bool :=
  c == ' ' || c == '\t' || c == '\n' || c == '\r'

/-- Skip leading JSON whitespace. -/
def skipWs : List Char → List Char
  | c :: cs => if isJsonWs c then skipWs cs else c :: cs
  | [] => []

/-- The character named by a JSON escape (`\u` escapes are not modelled:
no input in this development contains one). -/
def escChar (e : Char) : Option Char :=
  if e = '"' then some '"'
  else if e = '\\' then some '\\'
  else if e = '/' then some '/'
  else if e = 'b' then some (Char.ofNat 8)
  else if e = 'f' then some (Char.ofNat 12)
  else if e = 'n' then some '\n'
  else if e = 'r' then some '\r'
  else if e = 't' then some '\t'
  else none

/-- Parse the body of a JSON string (the opening quote already consumed),
up to and including the closing quote. -/
def parseStringBody : List Char → Option (List Char × List Char)
  | [] => none
  | '"' :: cs => some ([], cs)
  | '\\' :: e :: cs =>
    match escChar e with
    | some ch => (parseStringBody cs).map fun p => (ch :: p.1, p.2)
    | none => none
  | ['\\'] => none
  | c :: cs => (parseStringBody cs).map fun p => (c :: p.1, p.2)

/-- Parse a non-empty run of decimal digits. -/
def parseDigits (cs : List Char) : Option (Nat × List Char) :=
  let ds := cs.takeWhile Char.isDigit
  if ds.isEmpty then none
  else some (ds.foldl (fun a c => a * 10 + (c.toNat - 48)) 0, cs.dropWhile Char.isDigit)

mutual

/-- Parse one JSON value (fuel-indexed recursive-descent model of
`serde_json::from_str`'s grammar). -/
def parseValue : Nat → List Char → Option (Json × List Char)
  | 0, _ => none
  | fuel + 1, cs =>
    match skipWs cs with
    | [] => none
    | c :: cs' =>
      if c = '"' then
        (parseStringBody cs').map fun p => (Json.str (String.mk p.1), p.2)
      else if c = '{' then parseObject fuel cs'
      else if c = '[' then parseArray fuel cs'
      else if c = 't' then
        if cs'.take 3 = ['r', 'u', 'e'] then some (Json.bool true, cs'.drop 3) else none
      else if c = 'f' then
        if cs'.take 4 = ['a', 'l', 's', 'e'] then some (Json.bool false, cs'.drop 4) else none
      else if c = 'n' then
        if cs'.take 3 = ['u', 'l', 'l'] then some (Json.null, cs'.drop 3) else none
      else if c = '-' then
        (parseDigits cs').map fun p => (Json.num (-(p.1 : Int)), p.2)
      else if c.isDigit then
        (parseDigits (c :: cs')).map fun p => (Json.num (p.1 : Int), p.2)
      else none

/-- Parse an object body (the `{` already consumed). -/
def parseObject : Nat → List Char → Option (Json × List Char)
  | 0, _ => none
  | fuel + 1, cs =>
    match skipWs cs with
    | '}' :: rest => some (Json.obj [], rest)
    | _ => (parseMembers fuel (skipWs cs) []).map fun p => (Json.obj p.1, p.2)

/-- Parse the members of a non-empty object, accumulating fields in order. -/
def parseMembers : Nat → List Char → List (String × Json) →
    Option (List (String × Json) × List Char)
  | 0, _, _ => none
  | fuel + 1, cs, acc =>
    match skipWs cs with
    | '"' :: rest =>
      match parseStringBody rest with
      | none => none
      | some (key, rest2) =>
        match skipWs rest2 with
        | ':' :: rest3 =>
          match parseValue fuel rest3 with
          | none => none
          | some (v, rest4) =>
            match skipWs rest4 with
            | ',' :: rest5 => parseMembers fuel rest5 (acc ++ [(String.mk key, v)])
            | '}' :: rest5 => some (acc ++ [(String.mk key, v)], rest5)
            | _ => none
        | _ => none
    | _ => none

/-- Parse an array body (the `[` already consumed). -/
def parseArray : Nat → List Char → Option (Json × List Char)
  | 0, _ => none
  | fuel + 1, cs =>
    match skipWs cs with
    | ']' :: rest => some (Json.arr [], rest)
    | _ => (parseElems fuel (skipWs cs) []).map fun p => (Json.arr p.1, p.2)

/-- Parse the elements of a non-empty array, accumulating in order. -/
def parseElems : Nat → List Char → List Json → Option (List Json × List Char)
  | 0, _, _ => none
  | fuel + 1, cs, acc =>
    match parseValue fuel cs with
    | none => none
    | some (v, rest) =>
      match skipWs rest with
      | ',' :: rest2 => parseElems fuel rest2 (acc ++ [v])
      | ']' :: rest2 => some (acc ++ [v], rest2)
      | _ => none

end

/-- `serde_json::from_str`: parse one value and require only whitespace to
remain.  The fuel `3 * length + 3` strictly dominates the recursion depth
(each nesting level consumes at least one input character and at most
three fuel units), so fuel exhaustion never fires before a real parse
error. -/
def from_str (s : List Char) : Option Json :=
  match parseValue (3 * s.length + 3) s with
  | some (v, rest) => if (skipWs rest).isEmpty then some v else none
  | none => none

/-- `text.replace("</s>", "")` from `parse_tool_call` (`windsurf.rs`). -/
def removeEosTag : List Char → List Char
  | [] => []
  | '<' :: '/' :: 's' :: '>' :: cs => removeEosTag cs
  | c :: cs => c :: removeEosTag cs

/-- Rust `str::find`: position of the first occurrence of `pat`. -/
def findSub (pat : List Char) : List Char → Option Nat
  | [] => if pat.isEmpty then some 0 else none
  | c :: cs =>
    if pat.isPrefixOf (c :: cs) then some 0
    else (findSub pat cs).map (· + 1)

/-- Rust `str::trim` (ASCII whitespace; all inputs here are ASCII). -/
def trimChars (s : List Char) : List Char :=
  ((s.dropWhile Char.isWhitespace).reverse.dropWhile Char.isWhitespace).reverse

/-- The balanced-brace scan of `parse_tool_call`: increment the depth at
`{`, decrement at `}` (string contents are not treated specially), and
return the position one past the brace that first brings the depth to zero,
or `0` if that never happens.  The depth is an `i32` in the source and may
go negative, hence `Int`. -/
def braceScan : List Char → Nat → Int → Nat
  | [], _, _ => 0
  | c :: cs, i, depth =>
    if c = '{' then braceScan cs (i + 1) (depth + 1)
    else if c = '}' then
      if depth - 1 = 0 then i + 1 else braceScan cs (i + 1) (depth - 1)
    else braceScan cs (i + 1) depth

/-- The per-command brace matcher of the salvage path: returns
`(end, finalDepth)` where `end` is one past the brace that first brings the
depth to zero (`end = 0`, the initial value, if the loop runs out). -/
def braceMatchLoop : List Char → Nat → Int → Nat × Int
  | [], _, d => (0, d)
  | c :: cs, i, d =>
    if c = '{' then braceMatchLoop cs (i + 1) (d + 1)
    else if c = '}' then
      if d - 1 = 0 then (i + 1, 0) else braceMatchLoop cs (i + 1) (d - 1)
    else braceMatchLoop cs (i + 1) d

/-- A match of the regex `"(command\d+)"\s*:\s*\{` anchored at the head of
`s`: returns the match length. -/
def cmdMatchLen (s : List Char) : Option Nat :=
  match s with
  | '"' :: rest =>
    if (String.toList "command").isPrefixOf rest then
      let after := rest.drop 7
      let digits := after.takeWhile Char.isDigit
      if digits.isEmpty then none
      else
        match after.drop digits.length with
        | '"' :: rest2 =>
          let ws1 := rest2.takeWhile Char.isWhitespace
          match rest2.drop ws1.length with
          | ':' :: rest3 =>
            let ws2 := rest3.takeWhile Char.isWhitespace
            match rest3.drop ws2.length with
            | '{' :: _ => some (1 + 7 + digits.length + 1 + ws1.length + 1 + ws2.length + 1)
            | _ => none
          | _ => none
        | _ => none
    else none
  | _ => none

/-- `Regex::find_iter` for the command-key pattern: leftmost matches, each
search resuming after the previous match.  Fuel-indexed (each step consumes
at least one character, so `length + 1` fuel suffices). -/
def findCmdMatchesF : Nat → List Char → Nat → List (Nat × Nat)
  | 0, _, _ => []
  | _ + 1, [], _ => []
  | fuel + 1, c :: cs, i =>
    match cmdMatchLen (c :: cs) with
    | some len => (i, len) :: findCmdMatchesF fuel ((c :: cs).drop len) (i + len)
    | none => findCmdMatchesF fuel cs (i + 1)

/-- All matches of the command-key regex in `s`, with their positions. -/
def findCmdMatches (s : List Char) : List (Nat × Nat) :=
  findCmdMatchesF (s.length + 1) s 0

/-- `serde_json::Map::insert`: replace the value at an existing key,
otherwise add the binding.  (The `BTreeMap` key ordering is not modelled;
no theorem in this development observes the order of salvaged keys.) -/
def insertField : List (String × Json) → String → Json → List (String × Json)
  | [], k, v => [(k, v)]
  | (k', v') :: rest, k, v =>
    if k' = k then (k, v) :: rest else (k', v') :: insertField rest k v

/-- The salvage loop of `parse_tool_call`: for each regex match, find the
following `{` (the `?` on a missing `{` aborts the whole parse, hence
`none`), brace-match it, and if the braces balance and the segment parses,
extract the key exactly as the source does — `key_end` is computed from
`find('"')` on the text starting at the match (which begins with `"`, so
the offset found is `0`) — and insert it when the source's guards pass. -/
def salvageLoop (jsonStr : List Char) :
    List (Nat × Nat) → List (String × Json) → Option (List (String × Json))
  | [], acc => some acc
  | (mStart, _) :: ms, acc =>
    match findSub ['{'] (jsonStr.drop mStart) with
    | none => none
    | some rel =>
      let start := rel + mStart
      let pair := braceMatchLoop (jsonStr.drop start) 0 0
      let acc' :=
        if pair.2 = 0 then
          match from_str ((jsonStr.drop start).take pair.1) with
          | some obj =>
            let keyEnd := ((findSub ['"'] (jsonStr.drop mStart)).getD 0) + mStart + 1
            let keyStart := mStart + 1
            if keyStart < keyEnd ∧ keyEnd < jsonStr.length then
              let key := String.mk ((jsonStr.drop keyStart).take (keyEnd - 1 - keyStart))
              if (String.toList "command").isPrefixOf key.toList then
                insertField acc key obj
              else acc
            else acc
          | none => acc
        else acc
      salvageLoop jsonStr ms acc'

/-- The tail of `parse_tool_call`: the salvage path.  A non-empty salvaged
map yields an invocation; an empty one yields `none`. -/
def salvageResult (thinking name jsonStr : List Char) :
    Option (List Char × List Char × Json) :=
  match salvageLoop jsonStr (findCmdMatches jsonStr) [] with
  | none => none
  | some fields =>
    if fields.isEmpty then none
    else some (thinking, name, Json.obj fields)

/-- `parse_tool_call` (`windsurf.rs`): strip `</s>`, locate `[TOOL_CALLS]`
and `[ARGS]`, brace-scan the arguments to find their end (to end-of-text if
the braces never balance), then try: (1) parse as-is; (2) if `{` outnumber
`}`, append the deficit of `}` and re-parse; (3) salvage individual
`"commandN": {...}` objects.  Returns `(thinking, name, args)`. -/
def parse_tool_call (text0 : List Char) : Option (List Char × List Char × Json) :=
  let text := removeEosTag text0
  match findSub (String.toList "[TOOL_CALLS]") text with
  | none => none
  | some idx =>
    let after := text.drop (idx + 12)
    match findSub (String.toList "[ARGS]") after with
    | none => none
    | some argsIdx =>
      let name := trimChars (after.take argsIdx)
      let raw := trimChars (after.drop (argsIdx + 6))
      let end0 := braceScan raw 0 0
      let endPos := if end0 = 0 then raw.length else end0
      let jsonStr := raw.take endPos
      let thinking := trimChars (text.take idx)
      match from_str jsonStr with
      | some args => some (thinking, name, args)
      | none =>
        let opens := jsonStr.count '{'
        let closes := jsonStr.count '}'
        if opens > closes then
          match from_str (jsonStr ++ List.replicate (opens - closes) '}') with
          | some args => some (thinking, name, args)
          | none => salvageResult thinking name jsonStr
        else salvageResult thinking name jsonStr

/-- JSON string escaping as `serde_json::to_string` performs it for the
characters occurring in this development (quote, backslash, common control
characters; `\u` escapes for other control characters are not modelled). -/
def escapeJsonChar (c : Char) : List Char :=
  if c = '"' then ['\\', '"']
  else if c = '\\' then ['\\', '\\']
  else if c = '\n' then ['\\', 'n']
  else if c = '\r' then ['\\', 'r']
  else if c = '\t' then ['\\', 't']
  else [c]

/-- Escape a string for JSON output. -/
def escapeJson (s : String) : String :=
  String.mk (s.toList.map escapeJsonChar).flatten

mutual

/-- `serde_json::to_string` on the `Json` model. -/
def jsonRender : Json → String
  | Json.null => "null"
  | Json.bool true => "true"
  | Json.bool false => "false"
  | Json.num n => toString n
  | Json.str s => "\"" ++ escapeJson s ++ "\""
  | Json.arr xs => "[" ++ renderElems xs ++ "]"
  | Json.obj fs => "\x7b" ++ renderFields fs ++ "\x7d"

/-- Render array elements, comma-separated. -/
def renderElems : List Json → String
  | [] => ""
  | [x] => jsonRender x
  | x :: y :: xs => jsonRender x ++ "," ++ renderElems (y :: xs)

/-- Render object fields, comma-separated. -/
def renderFields : List (String × Json) → String
  | [] => ""
  | [(k, v)] => "\"" ++ escapeJson k ++ "\":" ++ jsonRender v
  | (k, v) :: f :: fs =>
    "\"" ++ escapeJson k ++ "\":" ++ jsonRender v ++ "," ++ renderFields (f :: fs)

end

end Windsurf

namespace Executor

/-- UTF-8 byte length of a character sequence (Rust `str::len`). -/
def utf8Len (cs : List Char) : Nat := (cs.map Char.utf8Size).sum

/-- Rust byte slice `line[..n]` on a string longer than `n` bytes: consume
characters while their bytes fit the budget; the slice is valid only if
the budget is consumed exactly (byte `n` falls on a character boundary),
otherwise the Rust indexing panics (`none`). -/
def takeBytes : Nat → List Char → Option (List Char)
  | 0, _ => some []
  | _ + 1, [] => none
  | budget + 1, c :: cs =>
    if c.utf8Size ≤ budget + 1 then
      (takeBytes (budget + 1 - c.utf8Size) cs).map (c :: ·)
    else none

/-- Split on `'\n'`, keeping every part (including a trailing empty one). -/
def splitNl : List Char → List (List Char)
  | [] => [[]]
  | '\n' :: cs => [] :: splitNl cs
  | c :: cs =>
    match splitNl cs with
    | l :: ls => (c :: l) :: ls
    | [] => [[c]]

/-- Strip one trailing `'\r'`. -/
def stripCr (l : List Char) : List Char :=
  if l.getLast? = some '\r' then l.dropLast else l

/-- Rust `str::lines`: split at `'\n'`, strip one `'\r'` from each
newline-terminated part, and drop the final empty part produced by a
terminal newline.  A bare trailing `'\r'` on an unterminated last line is
kept, as in Rust. -/
def rustLines (s : List Char) : List (List Char) :=
  if s.isEmpty then []
  else
    let parts := splitNl s
    let last := parts.getLastD []
    let init := parts.dropLast.map stripCr
    if last.isEmpty then init else init ++ [last]

/-- Cutting one line at `LINE_MAX_CHARS = 250` bytes, as
`ToolExecutor::truncate` does: lines of at most 250 bytes pass through;
longer lines are byte-sliced, panicking (`none`) when byte 250 falls
inside a multi-byte character. -/
def truncateLine (line : List Char) : Option (List Char) :=
  if utf8Len line > 250 then takeBytes 250 line else some line

/-- `ToolExecutor::truncate` (`executor.rs`): keep at most
`RESULT_MAX_LINES = 50` lines, cut each at 250 bytes, and append a marker
when lines were dropped.  `none` models a panic of the byte slice. -/
def truncate (text : List Char) : Option (List Char) :=
  let lines := rustLines text
  let limit := min lines.length 50
  match (lines.take limit).mapM truncateLine with
  | none => none
  | some result =>
    let result :=
      if lines.length > 50 then result ++ [String.toList "... (lines truncated) ..."]
      else result
    some (List.intercalate ['\n'] result)

/-- `ToolExecutor::readfile` (`executor.rs`), with the filesystem read
abstracted: `content` is the file's text (the error branch for an
unreadable file returns early in the source and is not modelled).  The
slice `lines[s..e]` panics (`none`) when `s > e`, which happens whenever
`start_line - 1` exceeds the clamped end. -/
def readfile (content : List Char) (start_line end_line : Option Nat) : Option (List Char) :=
  let lines := rustLines content
  let s := start_line.getD 1 - 1
  let e := min (end_line.getD lines.length) lines.length
  if s ≤ e then
    let numbered := ((lines.drop s).take (e - s)).enum.map
      fun p => (Nat.repr (s + p.1 + 1)).toList ++ ':' :: p.2
    truncate (List.intercalate ['\n'] numbered)
  else none


end Executor

namespace Search

open Windsurf (Json jsonRender)

/-- `windsurf::ChatMessage`. -/
structure ChatMessage where
  role : Nat
  content : String
  tool_call_id : Option String
  tool_name : Option String
  tool_args_json : Option String
  ref_call_id : Option String

/-- `prompt::FINAL_FORCE_ANSWER` (`prompt.rs`). -/
def FINAL_FORCE_ANSWER : String :=
  "You have no turns left. Now you MUST provide your final ANSWER, even if it's not complete."

/-- The combined result of one backend turn: `streaming_request` (the
network call, external) composed with `parse_response`.  `httpErr` is a
non-success HTTP status or transport failure; `ok` carries the recovered
thinking text and the optional `(name, args)` tool invocation. -/
inductive BackendStep where
  | httpErr (msg : String)
  | ok (thinking : String) (tool : Option (String × Json))

/-- The external collaborators of one `do_search` session, as oracles: the
credentials response body, the per-turn backend outcome, the executor's
combined per-turn command output (filesystem/subprocess effects),
per-turn uuids, `format_answer` (regex formatting of the final answer,
not inspected by any claim), and the prompt/repo-map strings (built from
the filesystem). -/
structure Env where
  creds : Json
  backend : Nat → BackendStep
  execResult : Nat → String
  callId : Nat → String
  formatAnswer : String → List String → String
  systemPrompt : String
  userContent : String
  projectRoot : String
  treeDepth : Nat

/-- Insert into a sorted list (ascending). -/
def insertSorted (k : String) : List String → List String
  | [] => [k]
  | x :: xs => if k ≤ x then k :: x :: xs else x :: insertSorted k xs

/-- `Vec::sort` on strings (insertion sort; same ascending order). -/
def sortStrings : List String → List String
  | [] => []
  | x :: xs => insertSorted x (sortStrings xs)

/-- The collection pass of `exec_tool_call` (`executor.rs` 318–339): over
the `command*` keys in sorted order, record each `rg` command's `pattern`
and each `readfile` command's `file`.  (The spawned execution of the
commands is external; its joined tagged output is the `execResult`
oracle.) -/
def collectFromArgs (args : Json) : List String × List String :=
  match args with
  | Json.obj fields =>
    let keys := sortStrings ((fields.map Prod.fst).filter fun k => k.startsWith "command")
    keys.foldl
      (fun acc k =>
        match List.lookup k fields with
        | none => acc
        | some cmd =>
          let ty := (cmd.get "type").bind Json.asStr
          let ps :=
            if ty = some "rg" then
              match (cmd.get "pattern").bind Json.asStr with
              | some p => acc.1 ++ [p]
              | none => acc.1
            else acc.1
          let fs :=
            if ty = some "readfile" then
              match (cmd.get "file").bind Json.asStr with
              | some f => acc.2 ++ [f]
              | none => acc.2
            else acc.2
          (ps, fs))
      ([], [])
  | _ => ([], [])

/-- First-occurrence deduplication (the `HashSet::insert` filter of the
timeout fallback). -/
def dedupFirstAux : List String → List String → List String
  | _, [] => []
  | seen, x :: xs =>
    if seen.contains x then dedupFirstAux seen xs
    else x :: dedupFirstAux (x :: seen) xs

/-- Deduplicate, keeping first occurrences. -/
def dedupFirst (l : List String) : List String := dedupFirstAux [] l

/-- Rust `str::replace(pat, "")` for a fixed non-empty pattern. -/
def removeAll (pat : List Char) : List Char → List Char
  | [] => []
  | c :: cs =>
    if h : pat ≠ [] ∧ pat.isPrefixOf (c :: cs) then removeAll pat ((c :: cs).drop pat.length)
    else c :: removeAll pat cs
termination_by l => l.length
decreasing_by
  · simp_wf
    have hp : 1 ≤ pat.length := by
      rcases h with ⟨h1, _⟩
      cases hp : pat with
      | nil => exact absurd hp h1
      | cons a as => simp
    omega
  · simp_wf

/-- Rust `PathBuf::from(root).join(rel)` (an absolute `rel` replaces the
root). -/
def pathJoin (root rel : String) : String :=
  if rel.startsWith "/" then rel else root ++ "/" ++ rel

/-- The timeout fallback text of `do_search` (`main.rs` 436–462): the
deduplicated files the model opened, then the deduplicated search patterns
of length at least 3, then the config line.  (Rust iterates a `HashSet`
for the keyword line, whose order is unspecified; the model uses
first-occurrence order.  No theorem inspects this text.) -/
def fallbackText (files patterns : List String) (root : String)
    (treeDepth maxTurns : Nat) : String :=
  let fs := dedupFirst files
  let n := fs.length
  let header := "Found " ++ toString n ++ " files (max turns reached, partial result)."
  let fileLines := fs.enum.map fun p =>
    "  [" ++ toString (p.1 + 1) ++ "/" ++ toString n ++ "] " ++
      pathJoin root (String.mk (removeAll (String.toList "/codebase/") p.2.toList))
  let uniq := (dedupFirst patterns).filter fun p => p.length ≥ 3
  let kwLines :=
    if uniq.isEmpty then ([] : List String)
    else ["", "grep keywords: " ++ String.intercalate ", " uniq]
  String.intercalate "\n"
    ([header, ""] ++ fileLines ++ kwLines ++
      ["", "[config] tree_depth=" ++ toString treeDepth ++ ", max_turns=" ++
        toString maxTurns ++ " (timeout fallback)"])

/-- Outcome of `do_search`: `Ok(text)` or an `anyhow::bail!` error. -/
inductive Outcome where
  | ok (text : String)
  | error (msg : String)

/-- The mutable state of the turn loop: the conversation, the executor's
accumulated side-channel facts, and instrumentation counters — `calls`
counts `streaming_request` invocations, `toolTurns` counts turns that
dispatched `restricted_exec`, `forced` counts forced-answer user messages,
`logs` records the statuses passed to `report_log` in order. -/
structure LoopSt where
  msgs : List ChatMessage
  patterns : List String
  files : List String
  calls : Nat
  toolTurns : Nat
  forced : Nat
  logs : List String

/-- Result of a `do_search` session. -/
structure SearchResult where
  outcome : Outcome
  st : LoopSt

/-- The condition `turn >= max_turns - 1` on `u32` values, with Rust
release-mode wrapping subtraction (for `max_turns = 0` the threshold wraps
to `2 ^ 32 - 1` and the condition is never met). -/
def forceThreshold (maxTurns : Nat) : Nat :=
  (maxTurns + (2 ^ 32 - 1)) % 2 ^ 32

/-- The turn loop of `do_search` (`main.rs` 375–431) plus the post-loop
timeout handling (433–465).  `remaining` is the number of loop iterations
left (`total_api_calls - turn`); each iteration issues one backend call.
On a tool-dispatching turn the assistant message (role 2, with the call id,
tool name and serialized arguments) and the tool-result message (role 4,
with the back-reference call id) are appended, plus the forced-answer user
message when `turn >= max_turns - 1`. -/
def searchLoop (env : Env) (maxTurns : Nat) : Nat → Nat → LoopSt → SearchResult
  | 0, _, st =>
    let st := { st with logs := st.logs ++ ["timeout"] }
    if st.files.isEmpty then
      ⟨Outcome.ok "Max turns reached without answer", st⟩
    else
      ⟨Outcome.ok (fallbackText st.files st.patterns env.projectRoot env.treeDepth maxTurns),
        st⟩
  | remaining + 1, turn, st =>
    let st := { st with calls := st.calls + 1 }
    match env.backend turn with
    | BackendStep.httpErr e =>
      ⟨Outcome.error ("Windsurf API error: " ++ e), { st with logs := st.logs ++ ["error"] }⟩
    | BackendStep.ok thinking none =>
      if thinking.startsWith "[Error]" then
        ⟨Outcome.error thinking, { st with logs := st.logs ++ ["error"] }⟩
      else
        ⟨Outcome.ok ("No relevant files found.\n\nRaw: " ++ thinking),
          { st with logs := st.logs ++ ["success"] }⟩
    | BackendStep.ok thinking (some (name, args)) =>
      if name = "answer" then
        ⟨Outcome.ok
            (env.formatAnswer (((args.get "answer").bind Json.asStr).getD "") st.patterns),
          { st with logs := st.logs ++ ["success"] }⟩
      else if name = "restricted_exec" then
        let collected := collectFromArgs args
        let st := { st with
          patterns := st.patterns ++ collected.1
          files := st.files ++ collected.2
          msgs := st.msgs ++
            [⟨2, thinking, some (env.callId turn), some "restricted_exec",
              some (jsonRender args), none⟩,
             ⟨4, env.execResult turn, none, none, none, some (env.callId turn)⟩]
          toolTurns := st.toolTurns + 1 }
        let st :=
          if turn ≥ forceThreshold maxTurns then
            { st with
              msgs := st.msgs ++ [⟨1, FINAL_FORCE_ANSWER, none, none, none, none⟩]
              forced := st.forced + 1 }
          else st
        searchLoop env maxTurns remaining (turn + 1) st
      else searchLoop env maxTurns remaining (turn + 1) st

/-- `do_search` (`main.rs` 321–466): check the credentials response (an
`error` field aborts with a logged error before any backend call; a
missing `api_key` or `jwt` aborts without a log), seed the conversation
with the system and user messages, then run `max_turns + 1` turn-loop
iterations. -/
def do_search (env : Env) (maxTurns : Nat) : SearchResult :=
  let st0 : LoopSt := ⟨[], [], [], 0, 0, 0, []⟩
  match env.creds.get "error" with
  | some err =>
    ⟨Outcome.error ((err.asStr).getD "Authentication failed"),
      { st0 with logs := ["error"] }⟩
  | none =>
    match (env.creds.get "api_key").bind Json.asStr with
    | none => ⟨Outcome.error "No api_key", st0⟩
    | some _ =>
      match (env.creds.get "jwt").bind Json.asStr with
      | none => ⟨Outcome.error "No jwt", st0⟩
      | some _ =>
        searchLoop env maxTurns (maxTurns + 1) 0
          { st0 with msgs :=
            [⟨5, env.systemPrompt, none, none, none, none⟩,
             ⟨1, env.userContent, none, none, none, none⟩] }

open Windsurf (Json)

/-- A concrete session environment: credentials present, the backend
always requesting `restricted_exec` with empty arguments. -/
def envT : Env where
  creds := Json.obj [("api_key", Json.str "k"), ("jwt", Json.str "j")]
  backend := fun _ => BackendStep.ok "th" (some ("restricted_exec", Json.obj []))
  execResult := fun _ => "r"
  callId := fun _ => "c"
  formatAnswer := fun _ _ => ""
  systemPrompt := "s"
  userContent := "u"
  projectRoot := ""
  treeDepth := 3

/-- A concrete session environment whose credentials response carries an
`error` field. -/
def envC8 : Env where
  creds := Json.obj [("error", Json.str "bad token")]
  backend := fun _ => BackendStep.httpErr "unreached"
  execResult := fun _ => ""
  callId := fun _ => ""
  formatAnswer := fun _ _ => ""
  systemPrompt := ""
  userContent := ""
  projectRoot := ""
  treeDepth := 3

end Search

end Relay

namespace Relay.Transport

open Windsurf (findSub trimChars)

/-- `TransportMode` (`main.rs`): header-framed (`Lsp`) or line-delimited. -/
inductive TransportMode where
  | lsp
  | line
deriving DecidableEq

/-- Result of one `read_message`-family call: end of input (0 bytes read),
a read error (propagated and skipped by the server loop), or a message. -/
inductive ReadResult where
  | eof
  | err
  | msg (s : List Char)

/-- Rust `str::split_once(':')`. -/
def splitOnceColon (s : List Char) : Option (List Char × List Char) :=
  match findSub [':'] s with
  | none => none
  | some i => some (s.take i, s.drop (i + 1))

/-- Rust `str::eq_ignore_ascii_case` (`Char.toLower` lowercases exactly
the ASCII range, as Rust does). -/
def eqIgnoreAsciiCase (a b : List Char) : Bool :=
  a.map Char.toLower == b.map Char.toLower

/-- `is_header_line` (`main.rs` 22–30): the part before the first `:`,
trimmed, equals `content-length` or `content-type` up to ASCII case. -/
def is_header_line (s : List Char) : Bool :=
  match splitOnceColon s with
  | some (name, _) =>
    eqIgnoreAsciiCase (trimChars name) (String.toList "content-length") ||
      eqIgnoreAsciiCase (trimChars name) (String.toList "content-type")
  | none => false

/-- `reader.read_line`: the bytes up to and including the next `'\n'` (or
to end of input); `none` models 0 bytes read (end of input). -/
def readLine : List Char → Option (List Char × List Char)
  | [] => none
  | c :: cs =>
    if c = '\n' then some (['\n'], cs)
    else
      match readLine cs with
      | some (l, rest) => some (c :: l, rest)
      | none => some ([c], [])

/-- `line.trim_end_matches(&['\r', '\n'])`. -/
def trimEndNl (l : List Char) : List Char :=
  (l.reverse.dropWhile fun c => c == '\r' || c == '\n').reverse

/-- The blank-line-skipping read shared by `read_line_message` and the
auto-detection branch of `read_message`: the first line whose trimmed form
is non-blank, with the remaining input.  Fuel-indexed; each iteration
consumes at least one character, so `length + 1` fuel suffices and the
fuel-exhaustion arm is unreachable. -/
def firstNonBlankF : Nat → List Char → Option (List Char × List Char)
  | 0, _ => none
  | fuel + 1, input =>
    match readLine input with
    | none => none
    | some (l, rest) =>
      if (trimEndNl l).isEmpty then firstNonBlankF fuel rest
      else some (trimEndNl l, rest)

/-- First non-blank trimmed line and remaining input. -/
def firstNonBlank (input : List Char) : Option (List Char × List Char) :=
  firstNonBlankF (input.length + 1) input

/-- `read_line_message` (`main.rs` 75–84): skip blank lines and return the
first non-blank line, trimmed, as the message. -/
def read_line_message (input : List Char) : ReadResult × List Char :=
  match firstNonBlank input with
  | none => (ReadResult.eof, [])
  | some (t, rest) => (ReadResult.msg t, rest)

/-- Rust `usize::from_str` on the trimmed header value: an optional `+`
sign then at least one digit (the `usize` overflow error is not
modelled). -/
def parseUsize (s : List Char) : Option Nat :=
  let t := match s with
    | '+' :: rest => rest
    | _ => s
  if t.isEmpty || !(t.all Char.isDigit) then none
  else some (t.foldl (fun a c => a * 10 + (c.toNat - 48)) 0)

/-- One header line's effect on the recorded `content_length`
(`main.rs` 59–65): only a parseable `Content-Length` header updates it. -/
def updateCl (cl : Option Nat) (t : List Char) : Option Nat :=
  match splitOnceColon t with
  | some (name, value) =>
    if eqIgnoreAsciiCase (trimChars name) (String.toList "content-length") then
      match parseUsize (trimChars value) with
      | some n => some n
      | none => cl
    else cl
  | none => cl

/-- The header loop of `read_lsp_message` (`main.rs` 49–66): read lines
until a blank line after at least one header; end of input yields `none`
(the caller returns `Ok(None)`).  Fuel-indexed as `firstNonBlankF`. -/
def readLspHeadersF : Nat → List Char → Option Nat → Bool →
    Option (Option Nat × List Char)
  | 0, input, cl, _ => some (cl, input)
  | fuel + 1, input, cl, seenHeader =>
    match readLine input with
    | none => none
    | some (l, rest) =>
      if (trimEndNl l).isEmpty then
        if seenHeader then some (cl, rest)
        else readLspHeadersF fuel rest cl seenHeader
      else readLspHeadersF fuel rest (updateCl cl (trimEndNl l)) true

/-- `read_lsp_message` (`main.rs` 33–72): parse the optional pre-read
first line, read headers until a blank line, then read exactly the
declared byte count as the message body.  A missing `Content-Length` or a
truncated body is an error; end of input before the blank line is a clean
end of stream. -/
def read_lsp_message (firstLine : Option (List Char)) (input : List Char) :
    ReadResult × List Char :=
  let cl0 : Option Nat := match firstLine with
    | some fl => updateCl none fl
    | none => none
  let seen0 : Bool := firstLine.isSome
  match readLspHeadersF (input.length + 1) input cl0 seen0 with
  | none => (ReadResult.eof, [])
  | some (none, rest) => (ReadResult.err, rest)
  | some (some len, rest) =>
    if len ≤ rest.length then (ReadResult.msg (rest.take len), rest.drop len)
    else (ReadResult.err, [])

/-- `read_message` (`main.rs` 87–112): in an established mode, read in
that mode; with no mode yet, skip blank lines and decide from the first
non-blank line — a header line selects header-framed (`Lsp`) mode and
continues the header read with that line, anything else selects
line-delimited mode and *is* the message.  The returned mode is the
`&mut Option<TransportMode>` after the call. -/
def read_message (mode : Option TransportMode) (input : List Char) :
    ReadResult × List Char × Option TransportMode :=
  match mode with
  | some TransportMode.line =>
    ((read_line_message input).1, (read_line_message input).2, some TransportMode.line)
  | some TransportMode.lsp =>
    ((read_lsp_message none input).1, (read_lsp_message none input).2,
      some TransportMode.lsp)
  | none =>
    match firstNonBlank input with
    | none => (ReadResult.eof, [], none)
    | some (t, rest) =>
      if is_header_line t then
        ((read_lsp_message (some t) rest).1, (read_lsp_message (some t) rest).2,
          some TransportMode.lsp)
      else (ReadResult.msg t, rest, some TransportMode.line)

/-- The transport-mode evolution of the server loop (`run_mcp_server`,
`main.rs` 144–204): each iteration calls `read_message` with the current
mode and continues with the returned mode (message handling never touches
the mode or the input stream); end of input breaks the loop.  Collects the
mode after each call. -/
def runModes : Nat → Option TransportMode → List Char → List (Option TransportMode)
  | 0, _, _ => []
  | k + 1, mode, input =>
    match read_message mode input with
    | (ReadResult.eof, _, mode') => [mode']
    | (_, rest, mode') => mode' :: runModes k mode' rest


end Relay.Transport

namespace Relay.Protocol

theorem and_127 (x : Nat) : x &&& 127 = x % 128 := by
  have h := Nat.and_pow_two_sub_one_eq_mod x 7
  norm_num at h
  exact h

theorem and_128 (x : Nat) : x &&& 128 = x / 128 % 2 * 128 := by
  have h := Nat.and_two_pow x 7
  rw [Nat.testBit_to_div_mod] at h
  norm_num at h
  rcases Nat.mod_two_eq_zero_or_one (x / 128) with h2 | h2 <;> simp [h2] at h <;> omega

/-- Bitwise-or of a value below `2 ^ s` with a multiple of `2 ^ s` is plain
addition (the operands occupy disjoint bit ranges). -/
theorem lor_mul_pow_eq_add : ∀ (s a m : Nat), a < 2 ^ s → a ||| m * 2 ^ s = a + m * 2 ^ s := by
  intro s
  induction s with
  | zero =>
    intro a m h
    have ha : a = 0 := by omega
    subst ha
    simp
  | succ s ih =>
    intro a m h
    have hp : (2 : Nat) ^ (s + 1) = 2 ^ s * 2 := by rw [pow_succ]
    have hmul : m * 2 ^ (s + 1) = m * 2 ^ s * 2 := by rw [hp, Nat.mul_assoc]
    have hdiv : (a ||| m * 2 ^ (s + 1)) / 2 = a / 2 + m * 2 ^ s := by
      rw [Nat.or_div_two, hmul, Nat.mul_div_cancel _ (by norm_num)]
      exact ih (a / 2) m (by omega)
    have hmod : (a ||| m * 2 ^ (s + 1)) % 2 = a % 2 := by
      rcases Nat.mod_two_eq_zero_or_one a with h2 | h2
      · have hne : ¬ (a ||| m * 2 ^ (s + 1)) % 2 = 1 := by
          rw [Nat.or_mod_two_eq_one]
          push_neg
          exact ⟨by omega, by rw [hmul]; omega⟩
        omega
      · have heq : (a ||| m * 2 ^ (s + 1)) % 2 = 1 := by
          rw [Nat.or_mod_two_eq_one]
          exact Or.inl h2
        omega
    have h1 := Nat.div_add_mod (a ||| m * 2 ^ (s + 1)) 2
    have h2 := Nat.div_add_mod a 2
    omega

/-- `decodeVarintLoop` only inspects the buffer from `offset` on, so
prefixing one byte and starting one byte later gives the same value with
the final offset shifted by one. -/
theorem decodeVarintLoop_cons (n : Nat) : ∀ (c : Nat) (data : List Nat) (offset shift value : Nat),
    data.length - offset ≤ n →
    decodeVarintLoop (c :: data) (offset + 1) shift value =
      ((decodeVarintLoop data offset shift value).1,
        (decodeVarintLoop data offset shift value).2 + 1) := by
  induction n with
  | zero =>
    intro c data offset shift value h
    have h1 : ¬ offset < data.length := by omega
    have h2 : ¬ offset + 1 < (c :: data).length := by simp only [List.length_cons]; omega
    conv_lhs => rw [decodeVarintLoop]
    conv_rhs => rw [decodeVarintLoop]
    rw [if_neg h2, if_neg h1]
  | succ n ih =>
    intro c data offset shift value h
    by_cases h1 : offset < data.length
    · have h2 : offset + 1 < (c :: data).length := by simp only [List.length_cons]; omega
      conv_lhs => rw [decodeVarintLoop]
      conv_rhs => rw [decodeVarintLoop]
      rw [if_pos h2, if_pos h1]
      simp only [List.getD_cons_succ]
      split
      · rfl
      · exact ih c data (offset + 1) (shift + 7) _ (by omega)
    · have h2 : ¬ offset + 1 < (c :: data).length := by simp only [List.length_cons]; omega
      conv_lhs => rw [decodeVarintLoop]
      conv_rhs => rw [decodeVarintLoop]
      rw [if_neg h2, if_neg h1]

/-- Decoding an encoded varint, starting at bit position `shift` with the
bits below `shift` already accumulated in `acc`, yields `acc + v * 2 ^ shift`
and consumes exactly the encoding. -/
theorem decodeVarintLoop_encode : ∀ (v : Nat), ∀ (rest : List Nat) (shift acc : Nat),
    shift < 64 → acc < 2 ^ shift → v < 2 ^ (64 - shift) →
    decodeVarintLoop (write_varint_raw v ++ rest) 0 shift acc =
      (acc + v * 2 ^ shift, (write_varint_raw v).length) := by
  intro v
  induction v using Nat.strong_induction_on with
  | _ v ih =>
    intro rest shift acc hs hacc hv
    have hBpos : 0 < (2 : Nat) ^ shift := pow_pos (by norm_num) shift
    have hsplit : (2 : Nat) ^ (64 - shift) * 2 ^ shift = 2 ^ 64 := by
      rw [← pow_add]
      congr 1
      omega
    have hshift : shift % 64 = shift := Nat.mod_eq_of_lt hs
    rw [write_varint_raw]
    by_cases h127 : v ≤ 127
    · rw [if_pos h127]
      simp only [List.cons_append, List.nil_append, List.length_cons, List.length_nil]
      rw [decodeVarintLoop]
      have hlen : 0 < (v :: rest).length := by simp
      have hb : v &&& 128 = 0 := by
        rw [and_128]
        have hz : v / 128 = 0 := by omega
        simp [hz]
      rw [if_pos hlen]
      simp only [List.getD_cons_zero]
      rw [if_pos hb, and_127, hshift, Nat.shiftLeft_eq]
      have hv128 : v % 128 = v := Nat.mod_eq_of_lt (by omega)
      rw [hv128]
      have hmul : (v + 1) * 2 ^ shift ≤ 2 ^ (64 - shift) * 2 ^ shift :=
        Nat.mul_le_mul_right _ (by omega)
      have hexp : (v + 1) * 2 ^ shift = v * 2 ^ shift + 2 ^ shift := by ring
      rw [Nat.mod_eq_of_lt (show v * 2 ^ shift < 2 ^ 64 by omega)]
      rw [lor_mul_pow_eq_add shift acc v hacc]
    · rw [if_neg h127]
      simp only [List.cons_append, List.length_cons]
      rw [decodeVarintLoop]
      have hlen : 0 < ((v % 128 + 128) :: (write_varint_raw (v / 128) ++ rest)).length := by
        simp
      rw [if_pos hlen]
      simp only [List.getD_cons_zero]
      have hb : ¬ (v % 128 + 128) &&& 128 = 0 := by
        rw [and_128]
        omega
      rw [if_neg hb]
      have hmask : (v % 128 + 128) &&& 127 = v % 128 := by
        rw [and_127]
        omega
      rw [hmask, hshift, Nat.shiftLeft_eq]
      have h7 : shift + 7 < 64 := by
        by_contra hc
        push_neg at hc
        have hle : (2 : Nat) ^ (64 - shift) ≤ 2 ^ 7 :=
          Nat.pow_le_pow_right (by norm_num) (by omega)
        norm_num at hle
        omega
      have hsplit7 : (2 : Nat) ^ (shift + 7) = 2 ^ shift * 128 := by
        rw [pow_add]
        norm_num
      have hlt7 : acc + v % 128 * 2 ^ shift < 2 ^ (shift + 7) := by
        have h1 : (v % 128 + 1) * 2 ^ shift ≤ 128 * 2 ^ shift :=
          Nat.mul_le_mul_right _ (by omega)
        have h2 : (v % 128 + 1) * 2 ^ shift = v % 128 * 2 ^ shift + 2 ^ shift := by ring
        omega
      have hlt64 : v % 128 * 2 ^ shift < 2 ^ 64 := by
        have h4 : (2 : Nat) ^ (shift + 7) ≤ 2 ^ 64 :=
          Nat.pow_le_pow_right (by norm_num) (by omega)
        omega
      rw [Nat.mod_eq_of_lt hlt64]
      rw [lor_mul_pow_eq_add shift acc (v % 128) hacc]
      rw [decodeVarintLoop_cons (write_varint_raw (v / 128) ++ rest).length _ _ 0 _ _ (by omega)]
      have hv' : v / 128 < 2 ^ (64 - (shift + 7)) := by
        have hd : (2 : Nat) ^ (64 - shift) = 2 ^ (64 - (shift + 7)) * 128 := by
          rw [show (128 : Nat) = 2 ^ 7 by norm_num, ← pow_add]
          congr 1
          omega
        omega
      rw [ih (v / 128) (by omega) rest (shift + 7) (acc + v % 128 * 2 ^ shift) h7 hlt7 hv']
      have hA : v % 128 * 2 ^ shift + v / 128 * 2 ^ (shift + 7) = v * 2 ^ shift := by
        rw [hsplit7]
        have hdm := Nat.div_add_mod v 128
        calc v % 128 * 2 ^ shift + v / 128 * (2 ^ shift * 128)
            = (128 * (v / 128) + v % 128) * 2 ^ shift := by ring
          _ = v * 2 ^ shift := by rw [hdm]
      simp only [Prod.mk.injEq]
      refine ⟨?_, by simp⟩
      rw [Nat.add_assoc, hA]

/-- Dividing by 128 removes exactly 7 bits from the bit length. -/
theorem size_div_128 (v : Nat) (h : 128 ≤ v) : Nat.size (v / 128) + 7 = Nat.size v := by
  have hpos : 0 < Nat.size (v / 128) := Nat.size_pos.mpr (by omega)
  have h1 : v / 128 < 2 ^ Nat.size (v / 128) := Nat.lt_size_self _
  have h2 : 2 ^ (Nat.size (v / 128) - 1) ≤ v / 128 := Nat.lt_size.mp (by omega)
  have hub : Nat.size v ≤ Nat.size (v / 128) + 7 := by
    rw [Nat.size_le]
    have hm : (v / 128 + 1) * 128 ≤ 2 ^ Nat.size (v / 128) * 128 :=
      Nat.mul_le_mul_right _ (by omega)
    have he : 2 ^ Nat.size (v / 128) * 128 = 2 ^ (Nat.size (v / 128) + 7) := by
      rw [pow_add]
      norm_num
    omega
  have hlb : Nat.size (v / 128) + 7 ≤ Nat.size v := by
    have hlt : Nat.size (v / 128) - 1 + 7 < Nat.size v := by
      rw [Nat.lt_size]
      have hm : 2 ^ (Nat.size (v / 128) - 1) * 128 ≤ v / 128 * 128 :=
        Nat.mul_le_mul_right _ h2
      have he : 2 ^ (Nat.size (v / 128) - 1) * 128 = 2 ^ (Nat.size (v / 128) - 1 + 7) := by
        rw [pow_add]
        norm_num
      omega
    omega
  omega

/-- Byte length of the varint encoding: one byte for `0`, otherwise
`⌈bitlength / 7⌉` bytes where the bit length is `Nat.size`. -/
theorem write_varint_raw_length (v : Nat) :
    (write_varint_raw v).length = if v = 0 then 1 else (Nat.size v + 6) / 7 := by
  induction v using Nat.strong_induction_on with
  | _ v ih =>
    rw [write_varint_raw]
    by_cases h127 : v ≤ 127
    · rw [if_pos h127]
      by_cases h0 : v = 0
      · simp [h0]
      · rw [if_neg h0]
        have hs1 : 0 < Nat.size v := Nat.size_pos.mpr (by omega)
        have hs7 : Nat.size v ≤ 7 := by
          rw [Nat.size_le]
          omega
        simp only [List.length_cons, List.length_nil]
        omega
    · rw [if_neg h127, if_neg (by omega : ¬ v = 0)]
      simp only [List.length_cons]
      rw [ih (v / 128) (by omega)]
      rw [if_neg (by omega : ¬ v / 128 = 0)]
      have hsz := size_div_128 v (by omega)
      have hs8 : 8 ≤ Nat.size v := by
        have h7lt : 7 < Nat.size v := by
          rw [Nat.lt_size]
          omega
        omega
      omega

/-- C6, counterexample: at `v = 0` the varint encoding occupies one byte,
but `⌈bits/7⌉ = ⌈0/7⌉ = 0` (the bit length of `0` is `0`), so the claimed
length formula fails at `v = 0`. -/
theorem claim_C6_counterexample :
    (write_varint_raw 0).length ≠ (Nat.size 0 + 6) / 7 := by
  rw [write_varint_raw]
  norm_num

/-- C6, amended: for every `v < 2 ^ 64` (the `u64` range), decoding the
varint encoding of `v` returns `v` with the offset advanced exactly past
the encoding, and the encoding occupies `⌈bits/7⌉` bytes for `v ≠ 0`
(where `bits` is the bit length `Nat.size v`) and one byte for `v = 0`. -/
theorem claim_C6 (v : Nat) (hv : v < 2 ^ 64) (rest : List Nat) :
    decode_varint (write_varint_raw v ++ rest) 0 = (v, (write_varint_raw v).length) ∧
    (write_varint_raw v).length = if v = 0 then 1 else (Nat.size v + 6) / 7 := by
  constructor
  · rw [decode_varint]
    rw [decodeVarintLoop_encode v rest 0 0 (by norm_num) (by norm_num)
      (by norm_num; exact hv)]
    simp
  · exact write_varint_raw_length v

/-- C6, witness: the amended theorem applied at `v = 300`. -/
theorem claim_C6_witness :
    decode_varint (write_varint_raw 300 ++ [9]) 0 = (300, (write_varint_raw 300).length) ∧
    (write_varint_raw 300).length = if 300 = 0 then 1 else (Nat.size 300 + 6) / 7 :=
  claim_C6 300 (by norm_num) [9]

/-- Reading back the four big-endian bytes of a `u32` recovers the value. -/
theorem be32_decode (n : Nat) (h : n < 2 ^ 32) :
    be32val (n / 2 ^ 24 % 256) (n / 2 ^ 16 % 256) (n / 2 ^ 8 % 256) (n % 256) = n := by
  rw [be32val]
  have e24 : (2 : Nat) ^ 24 = 16777216 := by norm_num
  have e16 : (2 : Nat) ^ 16 = 65536 := by norm_num
  have e8 : (2 : Nat) ^ 8 = 256 := by norm_num
  have e32 : (2 : Nat) ^ 32 = 4294967296 := by norm_num
  rw [e24, e16, e8] at *
  rw [e32] at h
  omega

/-- C2: for every byte payload `p`, decoding the frame produced by encoding
`p` yields exactly `[p]` after gzip decompression.  The gzip codec is the
external `flate2` library, abstracted as a pair `gz`/`gunzip` assumed to
invert each other on `p`; the compressed size must fit the frame header's
`u32` length field. -/
theorem claim_C2 (gz : List Nat → List Nat) (gunzip : List Nat → Option (List Nat))
    (p : List Nat) (hinv : gunzip (gz p) = some p) (hlen : (gz p).length < 2 ^ 32) :
    connect_frame_decode gunzip (connect_frame_encode gz p) = [p] := by
  rw [connect_frame_encode]
  simp only [be32]
  rw [Nat.mod_eq_of_lt hlen]
  simp only [List.cons_append, List.nil_append]
  rw [connect_frame_decode]
  rw [be32_decode _ hlen]
  rw [if_pos (Nat.le_refl _)]
  rw [List.take_length, List.drop_length]
  rw [decodeFramePayload]
  rw [if_pos (Or.inl rfl), hinv]
  simp [connect_frame_decode]

/-- C2, witness: the round-trip theorem applied with the identity codec and
the payload `[7, 8]`. -/
theorem claim_C2_witness :
    connect_frame_decode (fun l => some l) (connect_frame_encode (fun l => l) [7, 8]) =
      [[7, 8]] :=
  claim_C2 (fun l => l) (fun l => some l) [7, 8] rfl (by norm_num)

/-- C5: decoding a stream of fully-present frames followed by a partial
tail (mid-header truncation, or a header whose declared length exceeds the
remaining bytes) returns exactly the decoded earlier frames, dropping the
tail; `connect_frame_decode` is a total function, so no input makes it
panic or return an error. -/
theorem claim_C5 (gunzip : List Nat → Option (List Nat)) (fs : List (Nat × List Nat))
    (tail : List Nat) (hlen : ∀ f ∈ fs, (f.2).length < 2 ^ 32)
    (htail : isPartialTail tail = true) :
    connect_frame_decode gunzip ((fs.map fun f => mkFrame f.1 f.2).flatten ++ tail) =
      fs.map fun f => decodeFramePayload gunzip f.1 f.2 := by
  induction fs with
  | nil =>
    simp only [List.map_nil, List.flatten_nil, List.nil_append]
    rcases tail with _ | ⟨a, _ | ⟨b, _ | ⟨c, _ | ⟨d, _ | ⟨e, rest⟩⟩⟩⟩⟩
    · simp [connect_frame_decode]
    · simp [connect_frame_decode]
    · simp [connect_frame_decode]
    · simp [connect_frame_decode]
    · simp [connect_frame_decode]
    · rw [isPartialTail] at htail
      simp only [decide_eq_true_eq] at htail
      rw [connect_frame_decode]
      rw [if_neg (by omega)]
  | cons f fs ih =>
    simp only [List.map_cons, List.flatten_cons]
    rw [mkFrame]
    simp only [be32, List.cons_append, List.nil_append, List.append_assoc]
    rw [connect_frame_decode]
    rw [be32_decode _ (hlen f (by simp))]
    rw [if_pos (by simp)]
    rw [List.take_left, List.drop_left]
    rw [ih (fun g hg => hlen g (List.mem_cons_of_mem f hg))]

/-- C5, witness: one whole raw frame followed by a header that declares 9
payload bytes with only one present. -/
theorem claim_C5_witness :
    connect_frame_decode (fun _ => none)
        (([((0 : Nat), [9, 8])].map fun f => mkFrame f.1 f.2).flatten ++ [1, 0, 0, 0, 9, 5]) =
      [((0 : Nat), [9, 8])].map fun f => decodeFramePayload (fun _ => none) f.1 f.2 :=
  claim_C5 (fun _ => none) [(0, [9, 8])] [1, 0, 0, 0, 9, 5]
    (by intro f hf; simp at hf; rw [hf]; norm_num) (by decide)

end Relay.Protocol

namespace Relay.Windsurf

/-- C3: on the input text `...[TOOL_CALLS]answer[ARGS]{"answer":
"<ANSWER></ANSWER>"` — whose arguments object is missing its final closing
brace — `parse_tool_call` succeeds via the brace-appending repair and
returns the tool name `answer` with the repaired arguments object. -/
theorem claim_C3 :
    parse_tool_call
        (String.toList "...[TOOL_CALLS]answer[ARGS]\x7b\"answer\": \"<ANSWER></ANSWER>\"") =
      some (String.toList "...", String.toList "answer",
        Json.obj [("answer", Json.str "<ANSWER></ANSWER>")]) := rfl

/-- C4: evaluation at a failing input.  The arguments text
`{"command1": {"type": "tree"}, !!!` contains one well-formed
`"command1": {...}` object followed by garbage that defeats both the as-is
parse and the brace repair, yet `parse_tool_call` returns `none` — the
salvage path can never insert a key, because the source computes
`key_end = json_str[m.start()..].find('"').unwrap_or(0) + m.start() + 1`,
and the match starts with `"`, so `find` yields offset `0` and the guard
`key_start < key_end` (both equal to `m.start() + 1`) is always false.
The second conjunct shows the `command1` object itself is well-formed, so
the documented salvage behaviour would have produced it. -/
theorem claim_C4 :
    parse_tool_call
        (String.toList
          "[TOOL_CALLS]restricted_exec[ARGS]\x7b\"command1\": \x7b\"type\": \"tree\"\x7d, !!!") =
        none ∧
    from_str (String.toList "\x7b\"type\": \"tree\"\x7d") =
      some (Json.obj [("type", Json.str "tree")]) :=
  ⟨rfl, rfl⟩

end Relay.Windsurf

namespace Relay.Executor

/-- C10: evaluation at failing inputs.  `readfile` panics on a two-line
file with `start_line = 5` (the slice `lines[4..2]` has its start past its
end), and `truncate` panics on a line of 249 ASCII bytes followed by `é`
(the 250th byte falls inside the two-byte character), so neither operation
is total.  The second and fourth conjuncts show nearby inputs on which the
same operations succeed, isolating the panic to the claimed boundary. -/
theorem claim_C10 :
    readfile (String.toList "a\nb") (some 5) none = none ∧
    readfile (String.toList "a\nb") (some 1) none = some (String.toList "1:a\n2:b") ∧
    truncate (List.replicate 249 'a' ++ ['é']) = none ∧
    truncate (List.replicate 248 'a' ++ ['é']) = some (List.replicate 248 'a' ++ ['é']) :=
  ⟨rfl, rfl, rfl, rfl⟩

end Relay.Executor

namespace Relay.Search

open Windsurf (Json)


/-- When every backend turn yields a `restricted_exec` invocation, the
turn loop runs all its iterations — one backend call each — and ends in
the timeout path. -/
theorem searchLoop_all_restricted (env : Env) (maxTurns : Nat)
    (h : ∀ t, ∃ th a, env.backend t = BackendStep.ok th (some ("restricted_exec", a))) :
    ∀ (remaining turn : Nat) (st : LoopSt),
    (searchLoop env maxTurns remaining turn st).st.calls = st.calls + remaining ∧
    (searchLoop env maxTurns remaining turn st).st.logs = st.logs ++ ["timeout"] ∧
    ∃ text, (searchLoop env maxTurns remaining turn st).outcome = Outcome.ok text := by
  intro remaining
  induction remaining with
  | zero =>
    intro turn st
    rw [searchLoop]
    by_cases hf : st.files.isEmpty
    · rw [if_pos hf]
      exact ⟨rfl, rfl, _, rfl⟩
    · rw [if_neg hf]
      exact ⟨rfl, rfl, _, rfl⟩
  | succ r ih =>
    intro turn st
    obtain ⟨th, a, hb⟩ := h turn
    rw [searchLoop]
    simp only [hb]
    rw [if_neg (show ¬ ("restricted_exec" : String) = "answer" by decide)]
    simp only [if_true]
    split
    · refine ⟨?_, ?_, (ih (turn + 1) _).2.2⟩
      · rw [(ih (turn + 1) _).1]
        simp only
        omega
      · rw [(ih (turn + 1) _).2.1]
    · refine ⟨?_, ?_, (ih (turn + 1) _).2.2⟩
      · rw [(ih (turn + 1) _).1]
        simp only
        omega
      · rw [(ih (turn + 1) _).2.1]

/-- The forced-answer counter grows by at most one per loop iteration. -/
theorem searchLoop_forced_le (env : Env) (maxTurns : Nat) :
    ∀ (remaining turn : Nat) (st : LoopSt),
    (searchLoop env maxTurns remaining turn st).st.forced ≤ st.forced + remaining := by
  intro remaining
  induction remaining with
  | zero =>
    intro turn st
    rw [searchLoop]
    split <;> simp
  | succ r ih =>
    intro turn st
    rw [searchLoop]
    cases hb : env.backend turn with
    | httpErr e => simp
    | ok thinking tool =>
      cases tool with
      | none =>
        dsimp only
        split <;> simp
      | some nb =>
        obtain ⟨name, args⟩ := nb
        dsimp only
        by_cases hn : name = "answer"
        · rw [if_pos hn]
          simp
        · rw [if_neg hn]
          by_cases hr : name = "restricted_exec"
          · rw [if_pos hr]
            split
            · exact le_trans (ih (turn + 1) _) (by simp <;> omega)
            · exact le_trans (ih (turn + 1) _) (by simp <;> omega)
          · rw [if_neg hr]
            exact le_trans (ih (turn + 1) _) (by simp)

/-- The conversation-length invariant: the message count always equals
the two seed messages plus two per tool-using turn plus one per
forced-answer message. -/
theorem searchLoop_msgs_invariant (env : Env) (maxTurns : Nat) :
    ∀ (remaining turn : Nat) (st : LoopSt),
    st.msgs.length = 2 + 2 * st.toolTurns + st.forced →
    (searchLoop env maxTurns remaining turn st).st.msgs.length =
      2 + 2 * (searchLoop env maxTurns remaining turn st).st.toolTurns +
        (searchLoop env maxTurns remaining turn st).st.forced := by
  intro remaining
  induction remaining with
  | zero =>
    intro turn st hinv
    rw [searchLoop]
    split <;> simpa using hinv
  | succ r ih =>
    intro turn st hinv
    rw [searchLoop]
    cases hb : env.backend turn with
    | httpErr e => simpa using hinv
    | ok thinking tool =>
      cases tool with
      | none =>
        dsimp only
        split <;> simpa using hinv
      | some nb =>
        obtain ⟨name, args⟩ := nb
        dsimp only
        by_cases hn : name = "answer"
        · rw [if_pos hn]
          simpa using hinv
        · rw [if_neg hn]
          by_cases hrx : name = "restricted_exec"
          · rw [if_pos hrx]
            split
            · refine ih (turn + 1) _ ?_
              simp only [List.length_append, List.length_cons, List.length_nil]
              omega
            · refine ih (turn + 1) _ ?_
              simp only [List.length_append, List.length_cons, List.length_nil]
              omega
          · rw [if_neg hrx]
            refine ih (turn + 1) _ ?_
            simpa using hinv

/-- For `1 ≤ max_turns < 2 ^ 32` the wrapped threshold is the plain
`max_turns - 1`. -/
theorem forceThreshold_eq (maxTurns : Nat) (h1 : 1 ≤ maxTurns) (h2 : maxTurns < 2 ^ 32) :
    forceThreshold maxTurns = maxTurns - 1 := by
  rw [forceThreshold]
  have e : maxTurns + (2 ^ 32 - 1) = (maxTurns - 1) + 2 ^ 32 := by omega
  rw [e, Nat.add_mod_right]
  exact Nat.mod_eq_of_lt (by omega)

/-- Across the whole loop (`turn + remaining = max_turns + 1`), at most
two forced-answer messages are appended: the threshold `max_turns - 1`
leaves at most two iterations once reached. -/
theorem searchLoop_forced_bound (env : Env) (maxTurns : Nat)
    (h1 : 1 ≤ maxTurns) (h2 : maxTurns < 2 ^ 32) :
    ∀ (remaining turn : Nat) (st : LoopSt), turn + remaining = maxTurns + 1 →
    (searchLoop env maxTurns remaining turn st).st.forced ≤ st.forced + 2 := by
  intro remaining
  induction remaining with
  | zero =>
    intro turn st _
    rw [searchLoop]
    split <;> simp
  | succ r ih =>
    intro turn st hsum
    rw [searchLoop]
    cases hb : env.backend turn with
    | httpErr e => simp
    | ok thinking tool =>
      cases tool with
      | none =>
        dsimp only
        split <;> simp
      | some nb =>
        obtain ⟨name, args⟩ := nb
        dsimp only
        by_cases hn : name = "answer"
        · rw [if_pos hn]
          simp
        · rw [if_neg hn]
          by_cases hrx : name = "restricted_exec"
          · rw [if_pos hrx]
            by_cases hf : turn ≥ forceThreshold maxTurns
            · rw [if_pos hf]
              rw [forceThreshold_eq maxTurns h1 h2] at hf
              have hr1 : r ≤ 1 := by omega
              refine le_trans (searchLoop_forced_le env maxTurns r (turn + 1) _) ?_
              simp <;> omega
            · rw [if_neg hf]
              refine le_trans (ih (turn + 1) _ (by omega)) ?_
              simp
          · rw [if_neg hrx]
            refine le_trans (ih (turn + 1) _ (by omega)) ?_
            simp

/-- C8: a credentials response containing an `error` field aborts the
session before any backend request is built or sent — zero backend calls,
one `error` status log, and an error outcome. -/
theorem claim_C8 (env : Env) (msg : Windsurf.Json) (maxTurns : Nat)
    (h : env.creds.get "error" = some msg) :
    (do_search env maxTurns).st.calls = 0 ∧
    (do_search env maxTurns).st.logs = ["error"] ∧
    ∃ m, (do_search env maxTurns).outcome = Outcome.error m := by
  refine ⟨?_, ?_, ?_⟩ <;> simp [do_search, h]

/-- C8, witness: the theorem applied to a concrete environment whose
credentials response is `{"error": "bad token"}`. -/
theorem claim_C8_witness :
    (do_search envC8 5).st.calls = 0 ∧
    (do_search envC8 5).st.logs = ["error"] ∧
    ∃ m, (do_search envC8 5).outcome = Outcome.error m :=
  claim_C8 envC8 (Windsurf.Json.str "bad token") 5 rfl

/-- C1: with `max_turns = 2` and credentials present, if every backend
response parses to a `restricted_exec` invocation then `do_search` issues
exactly 3 backend calls (`max_turns + 1`), reports status `timeout`, and
returns the timeout outcome. -/
theorem claim_C1 (env : Env)
    (herr : env.creds.get "error" = none)
    (hkey : ∃ k, (env.creds.get "api_key").bind Json.asStr = some k)
    (hjwt : ∃ j, (env.creds.get "jwt").bind Json.asStr = some j)
    (hrestricted : ∀ t, ∃ th a,
      env.backend t = BackendStep.ok th (some ("restricted_exec", a))) :
    (do_search env 2).st.calls = 3 ∧
    (do_search env 2).st.logs = ["timeout"] ∧
    ∃ text, (do_search env 2).outcome = Outcome.ok text := by
  obtain ⟨k, hk⟩ := hkey
  obtain ⟨j, hj⟩ := hjwt
  simp only [do_search, herr, hk, hj]
  obtain ⟨hc, hl, ht⟩ := searchLoop_all_restricted env 2 hrestricted (2 + 1) 0
    ⟨[⟨5, env.systemPrompt, none, none, none, none⟩,
      ⟨1, env.userContent, none, none, none, none⟩], [], [], 0, 0, 0, []⟩
  exact ⟨hc, hl, ht⟩

/-- C1, witness: the theorem applied to a concrete environment whose
backend always requests `restricted_exec`. -/
theorem claim_C1_witness :
    (do_search envT 2).st.calls = 3 ∧
    (do_search envT 2).st.logs = ["timeout"] ∧
    ∃ text, (do_search envT 2).outcome = Outcome.ok text :=
  claim_C1 envT rfl ⟨"k", rfl⟩ ⟨"j", rfl⟩
    (fun _ => ⟨"th", Windsurf.Json.obj [], rfl⟩)

/-- C7, amended: over one whole `do_search` session (credentials present,
`1 ≤ max_turns < 2 ^ 32`), the conversation grows by exactly two messages
per tool-using turn over the two seed messages — plus the forced-answer
user messages, of which at most **two** are appended (one on each turn
from `max_turns - 1` on), not at most one as claimed. -/
theorem claim_C7 (env : Env) (maxTurns : Nat) (h1 : 1 ≤ maxTurns) (h2 : maxTurns < 2 ^ 32)
    (herr : env.creds.get "error" = none)
    (hkey : ∃ k, (env.creds.get "api_key").bind Json.asStr = some k)
    (hjwt : ∃ j, (env.creds.get "jwt").bind Json.asStr = some j) :
    (do_search env maxTurns).st.msgs.length =
      2 + 2 * (do_search env maxTurns).st.toolTurns + (do_search env maxTurns).st.forced ∧
    (do_search env maxTurns).st.forced ≤ 2 := by
  obtain ⟨k, hk⟩ := hkey
  obtain ⟨j, hj⟩ := hjwt
  simp only [do_search, herr, hk, hj]
  constructor
  · exact searchLoop_msgs_invariant env maxTurns (maxTurns + 1) 0 _ rfl
  · exact searchLoop_forced_bound env maxTurns h1 h2 (maxTurns + 1) 0 _ (by omega)

/-- C7, counterexample: with `max_turns = 2` and a model that always
requests `restricted_exec`, the session appends a forced-answer user
message on turn 1 *and* on turn 2 (`turn >= max_turns - 1` holds on both),
so two forced-answer messages are appended, refuting "at most one". -/
theorem claim_C7_counterexample :
    ¬ ((do_search envT 2).st.forced ≤ 1) := by decide

/-- C7, witness: the amended theorem applied to a concrete environment
at `max_turns = 2`. -/
theorem claim_C7_witness :
    (do_search envT 2).st.msgs.length =
      2 + 2 * (do_search envT 2).st.toolTurns + (do_search envT 2).st.forced ∧
    (do_search envT 2).st.forced ≤ 2 :=
  claim_C7 envT 2 (by norm_num) (by norm_num) rfl ⟨"k", rfl⟩ ⟨"j", rfl⟩

end Relay.Search

namespace Relay.Transport

/-- C9: the transport mode is chosen exactly once, from the first
non-blank input line — header-framed (`lsp`) iff that line is a
`Content-Length`/`Content-Type` header, otherwise line-delimited with that
very line as the complete message — and an established mode is never
changed by any later read, so every subsequent read (and the write that
uses `transport_mode.unwrap_or(Line)`) uses the same mode for the rest of
the process lifetime. -/
theorem claim_C9 :
    (∀ (input l rest : List Char), firstNonBlank input = some (l, rest) →
      (read_message none input).2.2 =
        some (if is_header_line l then TransportMode.lsp else TransportMode.line) ∧
      (is_header_line l = false →
        read_message none input = (ReadResult.msg l, rest, some TransportMode.line))) ∧
    (∀ (m : TransportMode) (input : List Char),
      (read_message (some m) input).2.2 = some m) ∧
    (∀ (k : Nat) (m : TransportMode) (input : List Char),
      ∀ mo ∈ runModes k (some m) input, mo = some m) := by
  refine ⟨?_, ?_, ?_⟩
  · intro input l rest h
    constructor
    · simp only [read_message, h]
      by_cases hh : is_header_line l = true
      · rw [if_pos hh, if_pos hh]
      · rw [if_neg hh, if_neg hh]
    · intro hh
      simp only [read_message, h]
      rw [if_neg (by simp [hh] : ¬ is_header_line l = true)]
  · intro m input
    cases m <;> rfl
  · intro k
    induction k with
    | zero =>
      intro m input mo hmo
      simp [runModes] at hmo
    | succ n ih =>
      intro m input mo hmo
      rw [runModes] at hmo
      have hmode : (read_message (some m) input).2.2 = some m := by cases m <;> rfl
      rcases hr : read_message (some m) input with ⟨res, rest, mode'⟩
      rw [hr] at hmo
      have hm' : mode' = some m := by rw [hr] at hmode; exact hmode
      subst hm'
      cases res with
      | eof => simp at hmo; exact hmo
      | err =>
        simp at hmo
        rcases hmo with h1 | h2
        · exact h1
        · exact ih m rest mo h2
      | msg s =>
        simp at hmo
        rcases hmo with h1 | h2
        · exact h1
        · exact ih m rest mo h2

/-- C9, witness: the theorem applied to concrete inputs — a
`Content-Length`-first stream selects header-framed mode; a JSON-first
stream selects line mode with that line as the message; an established
mode survives any input; and every mode observed across a three-iteration
server loop equals the established one. -/
theorem claim_C9_witness :
    (read_message none (String.toList "Content-Length: 2\r\n\r\n\x7b\x7d")).2.2 =
      some TransportMode.lsp ∧
    read_message none (String.toList "\x7b\"id\":1\x7d\nrest\n") =
      (ReadResult.msg (String.toList "\x7b\"id\":1\x7d"),
        String.toList "rest\n", some TransportMode.line) ∧
    (read_message (some TransportMode.line)
        (String.toList "Content-Length: 2\r\n\r\n\x7b\x7d")).2.2 =
      some TransportMode.line ∧
    ∀ mo ∈ runModes 3 (some TransportMode.lsp) (String.toList "x\ny\n"),
      mo = some TransportMode.lsp :=
  ⟨(claim_C9.1 (String.toList "Content-Length: 2\r\n\r\n\x7b\x7d")
      (String.toList "Content-Length: 2") (String.toList "\r\n\x7b\x7d") rfl).1,
    (claim_C9.1 (String.toList "\x7b\"id\":1\x7d\nrest\n")
      (String.toList "\x7b\"id\":1\x7d") (String.toList "rest\n") rfl).2 rfl,
    claim_C9.2.1 TransportMode.line (String.toList "Content-Length: 2\r\n\r\n\x7b\x7d"),
    claim_C9.2.2 3 TransportMode.lsp (String.toList "x\ny\n")⟩

end Relay.Transport
